import Mathlib

/-!
# tools_tide: bulk git merge and push driven by a repo manifest

A shallow embedding of `main.go`.  The program reads a manifest (a list of
remotes and a list of projects), and for the projects it selects it probes the
filesystem with `os.Stat` and runs `git` through `exec.Command(...).Run()`.

Everything the program does to the outside world is recorded as an `Event`
in a trace, in the order it happens: a `stat` probe, the execution of a
command with its full argument vector, a line printed to standard output.
The outside world itself is the record `World`.
-/

namespace Tide

/-- The `Remote` struct of the manifest: `name`, `fetch`, `revision` attributes. -/
structure Remote where
  Name : String
  Fetch : String
  Revision : String
  deriving DecidableEq, Repr

/-- The `Project` struct of the manifest, with the four fields it declares:
`path`, `name`, `remote`, `groups`. -/
structure Project where
  Path : String
  Name : String
  Remote : String
  Groups : String
  deriving DecidableEq, Repr

/-- The `Manifest` struct: remotes and projects in document order.  (`XMLName`
only names the root element for the decoder and is read nowhere.) -/
structure Manifest where
  Remotes : List Remote
  Projects : List Project
  deriving DecidableEq, Repr

/-- One interaction of the program with the outside world. -/
inductive Event where
  /-- The call `os.Stat(path)`. -/
  | stat (path : String)
  /-- The call `exec.Command(argv[0], argv[1:]...).Run()`. -/
  | exec (argv : List String)
  /-- The text written by one `fmt.Printf`. -/
  | print (text : String)
  deriving DecidableEq, Repr

/-- The outside world, as far as the program observes it.

* `join` is the library function `filepath.Join` on two elements.
* `notExist path` is the value of `os.IsNotExist(err)` for the `err` that
  `os.Stat(path)` returns; the existence of a path is fixed for the run.
* `run t argv` is the error returned by `cmd.Run()` for the command `argv`
  when the events `t` have happened before it: `none` is the nil error,
  `some e` an error that prints as `e`.
* `revision project` is the value of the expression `project.Revision` that
  `pushRepository` evaluates; the `Project` struct declares no such field, so
  its reading is left open. -/
structure World where
  join : String → String → String
  notExist : String → Bool
  run : List Event → List String → Option String
  revision : Project → String

/-- The loop of `getRemoteURL`: `fetchURL` keeps its value until a remote
whose `Name` equals `project.Remote` is met; then it becomes that remote's
`Fetch` and the loop breaks. -/
def getRemoteURL.loop (project : Project) : List Remote → String → String
  | [], fetchURL => fetchURL
  | remote :: rest, fetchURL =>
    if remote.Name = project.Remote then remote.Fetch
    else getRemoteURL.loop project rest fetchURL

/-- The function `getRemoteURL(project, branchOrTag, manifest)`. -/
def getRemoteURL (project : Project) (branchOrTag : String) (manifest : Manifest) : String :=
  let fetchURL := getRemoteURL.loop project manifest.Remotes ""
  if fetchURL = "" then ""
  else fetchURL ++ project.Path ++ " " ++ branchOrTag

/-- The function `mergeRepository(project, branchOrTag, cwd, manifest)`, run
after the events `t`: the returned error and the events after it. -/
def mergeRepository (w : World) (project : Project) (branchOrTag : String) (cwd : String)
    (_manifest : Manifest) (t : List Event) : Option String × List Event :=
  let repoPath := w.join cwd project.Path
  let t1 := t ++ [Event.stat repoPath]
  if w.notExist repoPath then
    (some ("repository not found in path: " ++ repoPath), t1)
  else
    let checkout := ["git", "-C", repoPath, "checkout", branchOrTag]
    match w.run t1 checkout with
    | some err => (some err, t1 ++ [Event.exec checkout])
    | none =>
      let t2 := t1 ++ [Event.exec checkout]
      let pull := ["git", "-C", repoPath, "pull",
        "https://android.googlesource.com" ++ project.Path, branchOrTag]
      match w.run t2 pull with
      | some err => (some err, t2 ++ [Event.exec pull])
      | none => (none, t2 ++ [Event.exec pull])

/-- The function `pushRepository(project, cwd, manifest)`, run after the
events `t`: the returned error and the events after it. -/
def pushRepository (w : World) (project : Project) (cwd : String)
    (manifest : Manifest) (t : List Event) : Option String × List Event :=
  let repoPath := w.join cwd project.Path
  let t1 := t ++ [Event.stat repoPath]
  if w.notExist repoPath then
    (some ("repository not found in path: " ++ repoPath), t1)
  else
    let remoteURL := getRemoteURL project (w.revision project) manifest
    let push := ["git", "-C", repoPath, "push", remoteURL]
    match w.run t1 push with
    | some err => (some err, t1 ++ [Event.exec push])
    | none => (none, t1 ++ [Event.exec push])

/-- The body of the merge loop of `main`, for one project, after the events `t`. -/
def mergeLoop.body (w : World) (branchOrTag : String) (cwd : String) (manifest : Manifest)
    (project : Project) (t : List Event) : List Event :=
  if project.Groups = "aosp-platform" then
    match mergeRepository w project branchOrTag cwd manifest t with
    | (some err, t1) =>
      t1 ++ [Event.print ("Error merging " ++ project.Name ++ ": " ++ err ++ "\n")]
    | (none, t1) => t1
  else t

/-- The merge loop of `main` (the `for` under `if mergeAll`), over the projects
still to visit, after the events `t`. -/
def mergeLoop (w : World) (branchOrTag : String) (cwd : String) (manifest : Manifest) :
    List Project → List Event → List Event
  | [], t => t
  | project :: rest, t =>
    mergeLoop w branchOrTag cwd manifest rest
      (mergeLoop.body w branchOrTag cwd manifest project t)

/-- The body of the push loop of `main`, for one project, after the events `t`. -/
def pushLoop.body (w : World) (cwd : String) (manifest : Manifest)
    (project : Project) (t : List Event) : List Event :=
  match pushRepository w project cwd manifest t with
  | (some err, t1) =>
    t1 ++ [Event.print ("Error pushing " ++ project.Name ++ ": " ++ err ++ "\n")]
  | (none, t1) => t1

/-- The push loop of `main` (the `for` under `if pushFlag`), over the projects
still to visit, after the events `t`. -/
def pushLoop (w : World) (cwd : String) (manifest : Manifest) :
    List Project → List Event → List Event
  | [], t => t
  | project :: rest, t =>
    pushLoop w cwd manifest rest (pushLoop.body w cwd manifest project t)

/-- The command-line flags after `flag.Parse()`. -/
structure Flags where
  mergeAll : Bool
  pushFlag : Bool
  branchOrTag : String
  deriving DecidableEq, Repr

/-- The function `main`, given the parsed flags, the result of
`readManifest("manifest.xml")` and the result of `os.Getwd()` (an error is
given by its printed form): the exit code and the events of the run. -/
def main (w : World) (flags : Flags) (manifestResult : Except String Manifest)
    (cwdResult : Except String String) : Nat × List Event :=
  match manifestResult with
  | Except.error err => (1, [Event.print ("Error reading manifest file: " ++ err ++ "\n")])
  | Except.ok manifest =>
    match cwdResult with
    | Except.error err =>
      (1, [Event.print ("Error getting current working directory: " ++ err ++ "\n")])
    | Except.ok cwd =>
      let t1 := if flags.mergeAll then
          mergeLoop w flags.branchOrTag cwd manifest manifest.Projects []
        else []
      let t2 := if flags.pushFlag then
          pushLoop w cwd manifest manifest.Projects t1
        else t1
      (0, t2)

/-! ## Reading a trace -/

/-- The paths probed by `os.Stat`, in order. -/
def statPaths : List Event → List String
  | [] => []
  | Event.stat path :: t => path :: statPaths t
  | _ :: t => statPaths t

/-- The argument vectors of the commands run, in order. -/
def execs : List Event → List (List String)
  | [] => []
  | Event.exec argv :: t => argv :: execs t
  | _ :: t => execs t

/-- The checkout command of `mergeRepository` for a repository path. -/
def checkoutCmd (repoPath branchOrTag : String) : List String :=
  ["git", "-C", repoPath, "checkout", branchOrTag]

/-- The pull command of `mergeRepository` for a project at a repository path. -/
def pullCmd (repoPath : String) (project : Project) (branchOrTag : String) : List String :=
  ["git", "-C", repoPath, "pull", "https://android.googlesource.com" ++ project.Path, branchOrTag]

/-- The push command of `pushRepository` for a repository path and a destination. -/
def pushCmd (repoPath remoteURL : String) : List String :=
  ["git", "-C", repoPath, "push", remoteURL]

/-- The git subcommand of an argument vector `git -C <path> <subcommand> ...`. -/
def subcommand : List String → Option String
  | _ :: _ :: _ :: sub :: _ => some sub
  | _ => none

/-- The number of commands of a trace that run the given git subcommand. -/
def countSub (sub : String) (t : List Event) : Nat :=
  ((execs t).filter (fun argv => decide (subcommand argv = some sub))).length

/-- The test of the merge loop: the project's `Groups` is the sentinel. -/
def eligible (project : Project) : Bool :=
  decide (project.Groups = "aosp-platform")

/-- The projects whose repository path is not reported missing. -/
def present (w : World) (cwd : String) (projects : List Project) : List Project :=
  projects.filter (fun project => !w.notExist (w.join cwd project.Path))

/-- The merge driver as the specification words it: `mergeRepository` is
called on every project of the list given, in order, and an error is printed. -/
def mergeEach (w : World) (branchOrTag : String) (cwd : String) (manifest : Manifest) :
    List Project → List Event → List Event
  | [], t => t
  | project :: rest, t =>
    match mergeRepository w project branchOrTag cwd manifest t with
    | (some err, t1) =>
      mergeEach w branchOrTag cwd manifest rest
        (t1 ++ [Event.print ("Error merging " ++ project.Name ++ ": " ++ err ++ "\n")])
    | (none, t1) => mergeEach w branchOrTag cwd manifest rest t1

/-! ## Concrete data used by the examples -/

/-- A world in which every path exists, every command succeeds, paths are
joined with a slash and `project.Revision` reads as `dev`. -/
def calmWorld : World where
  join := fun cwd path => cwd ++ "/" ++ path
  notExist := fun _ => false
  run := fun _ _ => none
  revision := fun _ => "dev"

/-- The remotes of the URL-resolution example, with the revision of `aosp` given. -/
def exampleRemotes (revision : String) : List Remote :=
  [{ Name := "aosp", Fetch := "https://host/", Revision := revision },
   { Name := "other", Fetch := "https://other/", Revision := "stable" }]

/-- The project of the URL-resolution example. -/
def exampleProject : Project :=
  { Path := "frameworks/base", Name := "platform/frameworks/base", Remote := "aosp",
    Groups := "aosp-platform" }

/-- A project whose remote is named by no remote of `exampleRemotes`. -/
def orphanProject : Project :=
  { Path := "vendor/extra", Name := "vendor_extra", Remote := "github", Groups := "" }

/-- A second project of the merge group. -/
def artProject : Project :=
  { Path := "art", Name := "platform/art", Remote := "aosp", Groups := "aosp-platform" }

/-- A project whose `Groups` contains the sentinel without being equal to it. -/
def pdkProject : Project :=
  { Path := "bionic", Name := "platform/bionic", Remote := "aosp",
    Groups := "aosp-platform,pdk" }

/-- The manifest of the examples. -/
def exampleManifest : Manifest :=
  { Remotes := exampleRemotes "main",
    Projects := [exampleProject, pdkProject, orphanProject, artProject] }

/-- A world in which no repository path exists. -/
def bareWorld : World where
  join := fun cwd path => cwd ++ "/" ++ path
  notExist := fun _ => true
  run := fun _ _ => none
  revision := fun _ => "dev"

/-- A world in which the checkout in `/src/frameworks/base` fails and every
other command succeeds, and in which `/src/vendor/extra` does not exist. -/
def flakyWorld : World where
  join := fun cwd path => cwd ++ "/" ++ path
  notExist := fun path => decide (path = "/src/vendor/extra")
  run := fun _ argv =>
    if argv = checkoutCmd "/src/frameworks/base" "release-1.0" then some "exit status 1"
    else none
  revision := fun _ => "dev"

/-! ## Strings -/

theorem append_ne_empty (a b : String) (h : a ≠ "") : a ++ b ≠ "" := by
  intro hab
  apply h
  have hd := congrArg String.data hab
  simp at hd
  exact String.ext (by simpa using hd.1)

/-! ## The lookup loop of `getRemoteURL` -/

theorem loop_no_match (project : Project) (remotes : List Remote) (fetchURL : String)
    (h : ∀ r ∈ remotes, r.Name ≠ project.Remote) :
    getRemoteURL.loop project remotes fetchURL = fetchURL := by
  induction remotes with
  | nil => rfl
  | cons r rest ih =>
    have hr : r.Name ≠ project.Remote := h r (List.mem_cons_self r rest)
    have hrest : ∀ x ∈ rest, x.Name ≠ project.Remote :=
      fun x hx => h x (List.mem_cons_of_mem r hx)
    simp [getRemoteURL.loop, hr, ih hrest]

theorem loop_first_match (project : Project) (pre : List Remote) (remote : Remote)
    (post : List Remote) (fetchURL : String)
    (hpre : ∀ r ∈ pre, r.Name ≠ project.Remote) (hname : remote.Name = project.Remote) :
    getRemoteURL.loop project (pre ++ remote :: post) fetchURL = remote.Fetch := by
  induction pre with
  | nil => simp [getRemoteURL.loop, hname]
  | cons r rest ih =>
    have hr : r.Name ≠ project.Remote := hpre r (List.mem_cons_self r rest)
    have hrest : ∀ x ∈ rest, x.Name ≠ project.Remote :=
      fun x hx => hpre x (List.mem_cons_of_mem r hx)
    simp [getRemoteURL.loop, hr, ih hrest]

theorem loop_revision_irrelevant (project : Project) (remotes : List Remote)
    (revision : Remote → String) (fetchURL : String) :
    getRemoteURL.loop project
        (remotes.map (fun r => { Name := r.Name, Fetch := r.Fetch, Revision := revision r }))
        fetchURL =
      getRemoteURL.loop project remotes fetchURL := by
  induction remotes with
  | nil => rfl
  | cons r rest ih =>
    by_cases h : r.Name = project.Remote
    · simp [getRemoteURL.loop, h]
    · simp [getRemoteURL.loop, h, ih]

theorem first_match_split (project : Project) (remotes : List Remote)
    (h : ∃ r ∈ remotes, r.Name = project.Remote) :
    ∃ pre remote post, remotes = pre ++ remote :: post ∧
      (∀ r ∈ pre, r.Name ≠ project.Remote) ∧ remote.Name = project.Remote := by
  induction remotes with
  | nil => simp at h
  | cons r rest ih =>
    by_cases hr : r.Name = project.Remote
    · exact ⟨[], r, rest, rfl, by simp, hr⟩
    · have hex : ∃ x ∈ rest, x.Name = project.Remote := by
        obtain ⟨x, hx, hxn⟩ := h
        rcases List.mem_cons.mp hx with rfl | hx
        · exact absurd hxn hr
        · exact ⟨x, hx, hxn⟩
      obtain ⟨pre, remote, post, hsplit, hpre, hname⟩ := ih hex
      refine ⟨r :: pre, remote, post, by simp [hsplit], ?_, hname⟩
      intro x hx
      rcases List.mem_cons.mp hx with rfl | hx
      · exact hr
      · exact hpre x hx

theorem getRemoteURL_no_match (project : Project) (branchOrTag : String) (manifest : Manifest)
    (h : ∀ r ∈ manifest.Remotes, r.Name ≠ project.Remote) :
    getRemoteURL project branchOrTag manifest = "" := by
  simp [getRemoteURL, loop_no_match project manifest.Remotes "" h]

theorem getRemoteURL_first_match (project : Project) (branchOrTag : String)
    (manifest : Manifest) (pre : List Remote) (remote : Remote) (post : List Remote)
    (hsplit : manifest.Remotes = pre ++ remote :: post)
    (hpre : ∀ r ∈ pre, r.Name ≠ project.Remote) (hname : remote.Name = project.Remote) :
    getRemoteURL project branchOrTag manifest =
      if remote.Fetch = "" then "" else remote.Fetch ++ project.Path ++ " " ++ branchOrTag := by
  simp [getRemoteURL, hsplit, loop_first_match project pre remote post "" hpre hname]

/-! ## Traces -/

theorem execs_append (t u : List Event) : execs (t ++ u) = execs t ++ execs u := by
  induction t with
  | nil => rfl
  | cons e t ih => cases e <;> simp [execs, ih]

theorem statPaths_append (t u : List Event) :
    statPaths (t ++ u) = statPaths t ++ statPaths u := by
  induction t with
  | nil => rfl
  | cons e t ih => cases e <;> simp [statPaths, ih]

/-! ## One repository -/

theorem mergeRepository_missing (w : World) (project : Project) (branchOrTag cwd : String)
    (manifest : Manifest) (t : List Event)
    (h : w.notExist (w.join cwd project.Path) = true) :
    mergeRepository w project branchOrTag cwd manifest t =
      (some ("repository not found in path: " ++ w.join cwd project.Path),
        t ++ [Event.stat (w.join cwd project.Path)]) := by
  simp [mergeRepository, h]

theorem pushRepository_missing (w : World) (project : Project) (cwd : String)
    (manifest : Manifest) (t : List Event)
    (h : w.notExist (w.join cwd project.Path) = true) :
    pushRepository w project cwd manifest t =
      (some ("repository not found in path: " ++ w.join cwd project.Path),
        t ++ [Event.stat (w.join cwd project.Path)]) := by
  simp [pushRepository, h]

theorem pushRepository_present (w : World) (project : Project) (cwd : String)
    (manifest : Manifest) (t : List Event)
    (h : w.notExist (w.join cwd project.Path) = false) :
    pushRepository w project cwd manifest t =
      (w.run (t ++ [Event.stat (w.join cwd project.Path)])
          (pushCmd (w.join cwd project.Path)
            (getRemoteURL project (w.revision project) manifest)),
        t ++ [Event.stat (w.join cwd project.Path),
          Event.exec (pushCmd (w.join cwd project.Path)
            (getRemoteURL project (w.revision project) manifest))]) := by
  simp only [pushRepository, h, pushCmd]
  simp only [List.append_assoc, List.singleton_append, Bool.false_eq_true, if_false]
  generalize w.run _ _ = r
  cases r <;> rfl

theorem mergeRepository_checkout_fails (w : World) (project : Project)
    (branchOrTag cwd : String) (manifest : Manifest) (t : List Event) (err : String)
    (h : w.notExist (w.join cwd project.Path) = false)
    (hrun : w.run (t ++ [Event.stat (w.join cwd project.Path)])
      (checkoutCmd (w.join cwd project.Path) branchOrTag) = some err) :
    mergeRepository w project branchOrTag cwd manifest t =
      (some err, t ++ [Event.stat (w.join cwd project.Path),
        Event.exec (checkoutCmd (w.join cwd project.Path) branchOrTag)]) := by
  simp only [checkoutCmd] at hrun
  simp [mergeRepository, h, hrun, checkoutCmd]

theorem mergeRepository_checkout_ok (w : World) (project : Project)
    (branchOrTag cwd : String) (manifest : Manifest) (t : List Event)
    (h : w.notExist (w.join cwd project.Path) = false)
    (hrun : w.run (t ++ [Event.stat (w.join cwd project.Path)])
      (checkoutCmd (w.join cwd project.Path) branchOrTag) = none) :
    mergeRepository w project branchOrTag cwd manifest t =
      (w.run (t ++ [Event.stat (w.join cwd project.Path),
            Event.exec (checkoutCmd (w.join cwd project.Path) branchOrTag)])
          (pullCmd (w.join cwd project.Path) project branchOrTag),
        t ++ [Event.stat (w.join cwd project.Path),
          Event.exec (checkoutCmd (w.join cwd project.Path) branchOrTag),
          Event.exec (pullCmd (w.join cwd project.Path) project branchOrTag)]) := by
  simp only [checkoutCmd] at hrun
  simp only [mergeRepository, h, hrun, checkoutCmd, pullCmd]
  simp only [List.append_assoc, List.singleton_append, Bool.false_eq_true, if_false]
  generalize w.run _ _ = r
  cases r <;> rfl

/-! ## One iteration of each loop -/

theorem mergeBody_skip (w : World) (branchOrTag cwd : String) (manifest : Manifest)
    (project : Project) (t : List Event) (h : project.Groups ≠ "aosp-platform") :
    mergeLoop.body w branchOrTag cwd manifest project t = t := by
  simp [mergeLoop.body, h]

/-- What one iteration of the merge loop adds for a project of the group: the
probe of its path, then nothing but prints when the path is missing, and the
checkout, possibly followed by the pull, when it exists. -/
theorem mergeBody_shape (w : World) (branchOrTag cwd : String) (manifest : Manifest)
    (project : Project) (t : List Event) (h : project.Groups = "aosp-platform") :
    ∃ s, mergeLoop.body w branchOrTag cwd manifest project t =
        t ++ Event.stat (w.join cwd project.Path) :: s ∧
      statPaths s = [] ∧
      (w.notExist (w.join cwd project.Path) = true → execs s = []) ∧
      (w.notExist (w.join cwd project.Path) = false →
        execs s = [checkoutCmd (w.join cwd project.Path) branchOrTag] ∨
        execs s = [checkoutCmd (w.join cwd project.Path) branchOrTag,
          pullCmd (w.join cwd project.Path) project branchOrTag]) := by
  cases hex : w.notExist (w.join cwd project.Path) with
  | true =>
    refine ⟨[Event.print ("Error merging " ++ project.Name ++ ": " ++
      ("repository not found in path: " ++ w.join cwd project.Path) ++ "\n")], ?_, rfl,
      fun _ => rfl, fun hc => by simp at hc⟩
    simp [mergeLoop.body, h, mergeRepository_missing w project branchOrTag cwd manifest t hex]
  | false =>
    cases hco : w.run (t ++ [Event.stat (w.join cwd project.Path)])
        (checkoutCmd (w.join cwd project.Path) branchOrTag) with
    | some err =>
      refine ⟨[Event.exec (checkoutCmd (w.join cwd project.Path) branchOrTag),
        Event.print ("Error merging " ++ project.Name ++ ": " ++ err ++ "\n")], ?_, rfl,
        fun hc => by simp at hc, fun _ => Or.inl rfl⟩
      simp [mergeLoop.body, h,
        mergeRepository_checkout_fails w project branchOrTag cwd manifest t err hex hco]
    | none =>
      have hm := mergeRepository_checkout_ok w project branchOrTag cwd manifest t hex hco
      cases hpl : w.run (t ++ [Event.stat (w.join cwd project.Path),
          Event.exec (checkoutCmd (w.join cwd project.Path) branchOrTag)])
          (pullCmd (w.join cwd project.Path) project branchOrTag) with
      | some err =>
        rw [hpl] at hm
        refine ⟨[Event.exec (checkoutCmd (w.join cwd project.Path) branchOrTag),
          Event.exec (pullCmd (w.join cwd project.Path) project branchOrTag),
          Event.print ("Error merging " ++ project.Name ++ ": " ++ err ++ "\n")], ?_, rfl,
          fun hc => by simp at hc, fun _ => Or.inr rfl⟩
        simp [mergeLoop.body, h, hm]
      | none =>
        rw [hpl] at hm
        refine ⟨[Event.exec (checkoutCmd (w.join cwd project.Path) branchOrTag),
          Event.exec (pullCmd (w.join cwd project.Path) project branchOrTag)], ?_, rfl,
          fun hc => by simp at hc, fun _ => Or.inr rfl⟩
        simp [mergeLoop.body, h, hm]

/-- What one iteration of the push loop adds: the probe of the path, then
nothing but prints when the path is missing and the push when it exists. -/
theorem pushBody_shape (w : World) (cwd : String) (manifest : Manifest)
    (project : Project) (t : List Event) :
    ∃ s, pushLoop.body w cwd manifest project t =
        t ++ Event.stat (w.join cwd project.Path) :: s ∧
      statPaths s = [] ∧
      execs s = if w.notExist (w.join cwd project.Path) = true then []
        else [pushCmd (w.join cwd project.Path)
          (getRemoteURL project (w.revision project) manifest)] := by
  cases hex : w.notExist (w.join cwd project.Path) with
  | true =>
    refine ⟨[Event.print ("Error pushing " ++ project.Name ++ ": " ++
      ("repository not found in path: " ++ w.join cwd project.Path) ++ "\n")], ?_, rfl, rfl⟩
    simp [pushLoop.body, pushRepository_missing w project cwd manifest t hex]
  | false =>
    have hp := pushRepository_present w project cwd manifest t hex
    cases hrun : w.run (t ++ [Event.stat (w.join cwd project.Path)])
        (pushCmd (w.join cwd project.Path)
          (getRemoteURL project (w.revision project) manifest)) with
    | some err =>
      rw [hrun] at hp
      refine ⟨[Event.exec (pushCmd (w.join cwd project.Path)
          (getRemoteURL project (w.revision project) manifest)),
        Event.print ("Error pushing " ++ project.Name ++ ": " ++ err ++ "\n")], ?_, rfl, ?_⟩
      · simp [pushLoop.body, hp]
      · simp [execs]
    | none =>
      rw [hrun] at hp
      refine ⟨[Event.exec (pushCmd (w.join cwd project.Path)
          (getRemoteURL project (w.revision project) manifest))], ?_, rfl, ?_⟩
      · simp [pushLoop.body, hp]
      · simp [execs]

/-! ## The merge loop -/

theorem mergeBody_extends (w : World) (branchOrTag cwd : String) (manifest : Manifest)
    (project : Project) (t : List Event) :
    ∃ s, mergeLoop.body w branchOrTag cwd manifest project t = t ++ s := by
  by_cases h : project.Groups = "aosp-platform"
  · obtain ⟨s, hs, _⟩ := mergeBody_shape w branchOrTag cwd manifest project t h
    exact ⟨_, hs⟩
  · exact ⟨[], by simp [mergeBody_skip w branchOrTag cwd manifest project t h]⟩

theorem mergeLoop_extends (w : World) (branchOrTag cwd : String) (manifest : Manifest)
    (projects : List Project) (t : List Event) :
    ∃ s, mergeLoop w branchOrTag cwd manifest projects t = t ++ s := by
  induction projects generalizing t with
  | nil => exact ⟨[], by simp [mergeLoop]⟩
  | cons p rest ih =>
    obtain ⟨s1, h1⟩ := mergeBody_extends w branchOrTag cwd manifest p t
    obtain ⟨s2, h2⟩ := ih (mergeLoop.body w branchOrTag cwd manifest p t)
    exact ⟨s1 ++ s2, by rw [mergeLoop, h2, h1, List.append_assoc]⟩

theorem mergeLoop_statPaths (w : World) (branchOrTag cwd : String) (manifest : Manifest)
    (projects : List Project) (t : List Event) :
    statPaths (mergeLoop w branchOrTag cwd manifest projects t) =
      statPaths t ++ (projects.filter eligible).map (fun p => w.join cwd p.Path) := by
  induction projects generalizing t with
  | nil => simp [mergeLoop]
  | cons p rest ih =>
    rw [mergeLoop, ih]
    by_cases h : p.Groups = "aosp-platform"
    · obtain ⟨s, hs, hstat, _⟩ := mergeBody_shape w branchOrTag cwd manifest p t h
      have hel : eligible p = true := by simp [eligible, h]
      rw [hs, statPaths_append]
      simp [statPaths, hstat, List.filter_cons, hel]
    · have hel : eligible p = false := by simp [eligible, h]
      rw [mergeBody_skip w branchOrTag cwd manifest p t h]
      simp [List.filter_cons, hel]

theorem mergeLoop_eq_mergeEach (w : World) (branchOrTag cwd : String) (manifest : Manifest)
    (projects : List Project) (t : List Event) :
    mergeLoop w branchOrTag cwd manifest projects t =
      mergeEach w branchOrTag cwd manifest (projects.filter eligible) t := by
  induction projects generalizing t with
  | nil => simp [mergeLoop, mergeEach]
  | cons p rest ih =>
    rw [mergeLoop, ih]
    by_cases h : p.Groups = "aosp-platform"
    · have hel : eligible p = true := by simp [eligible, h]
      rw [List.filter_cons, if_pos hel, mergeEach]
      simp only [mergeLoop.body, h, if_true]
      rcases mergeRepository w p branchOrTag cwd manifest t with ⟨_ | err, t1⟩ <;> rfl
    · have hel : eligible p = false := by simp [eligible, h]
      rw [mergeBody_skip w branchOrTag cwd manifest p t h, List.filter_cons]
      simp [hel]

theorem mergeLoop_execs_mem (w : World) (branchOrTag cwd : String) (manifest : Manifest)
    (projects : List Project) (t : List Event) (argv : List String)
    (hmem : argv ∈ execs (mergeLoop w branchOrTag cwd manifest projects t)) :
    argv ∈ execs t ∨ ∃ p ∈ projects, p.Groups = "aosp-platform" ∧
      w.notExist (w.join cwd p.Path) = false ∧
      (argv = checkoutCmd (w.join cwd p.Path) branchOrTag ∨
        argv = pullCmd (w.join cwd p.Path) p branchOrTag) := by
  induction projects generalizing t with
  | nil => exact Or.inl (by simpa [mergeLoop] using hmem)
  | cons p rest ih =>
    rw [mergeLoop] at hmem
    rcases ih _ hmem with hbody | ⟨q, hq, hrest⟩
    · by_cases h : p.Groups = "aosp-platform"
      · obtain ⟨s, hs, _, hmiss, hpres⟩ := mergeBody_shape w branchOrTag cwd manifest p t h
        rw [hs, execs_append] at hbody
        rcases List.mem_append.mp hbody with ht | hs2
        · exact Or.inl ht
        · have hs3 : argv ∈ execs s := by simpa [execs] using hs2
          cases hex : w.notExist (w.join cwd p.Path) with
          | true => rw [hmiss hex] at hs3; simp at hs3
          | false =>
            refine Or.inr ⟨p, List.mem_cons_self p rest, h, hex, ?_⟩
            rcases hpres hex with hc | hc <;> rw [hc] at hs3 <;> simp at hs3
            · exact Or.inl hs3
            · exact hs3
      · rw [mergeBody_skip w branchOrTag cwd manifest p t h] at hbody
        exact Or.inl hbody
    · exact Or.inr ⟨q, List.mem_cons_of_mem p hq, hrest⟩

theorem mergeLoop_append (w : World) (branchOrTag cwd : String) (manifest : Manifest)
    (first rest : List Project) (t : List Event) :
    mergeLoop w branchOrTag cwd manifest (first ++ rest) t =
      mergeLoop w branchOrTag cwd manifest rest
        (mergeLoop w branchOrTag cwd manifest first t) := by
  induction first generalizing t with
  | nil => rfl
  | cons p tail ih => rw [List.cons_append, mergeLoop, mergeLoop, ih]

/-- The checkout of a project of the group whose path exists is among the
events the loop adds. -/
theorem mergeLoop_checkout_added (w : World) (branchOrTag cwd : String) (manifest : Manifest)
    (projects : List Project) (t : List Event) (p : Project) (hp : p ∈ projects)
    (hgroup : p.Groups = "aosp-platform") (hex : w.notExist (w.join cwd p.Path) = false) :
    ∃ s, mergeLoop w branchOrTag cwd manifest projects t = t ++ s ∧
      checkoutCmd (w.join cwd p.Path) branchOrTag ∈ execs s := by
  induction projects generalizing t with
  | nil => simp at hp
  | cons q rest ih =>
    rcases List.mem_cons.mp hp with rfl | hrest
    · obtain ⟨s1, hs1, _, _, hpres⟩ := mergeBody_shape w branchOrTag cwd manifest p t hgroup
      obtain ⟨s2, hs2⟩ := mergeLoop_extends w branchOrTag cwd manifest rest
        (mergeLoop.body w branchOrTag cwd manifest p t)
      refine ⟨Event.stat (w.join cwd p.Path) :: s1 ++ s2, ?_, ?_⟩
      · rw [mergeLoop, hs2, hs1]; simp
      · rw [execs_append]
        apply List.mem_append_left
        rcases hpres hex with hc | hc <;> simp [execs, hc]
    · obtain ⟨s1, hs1⟩ := mergeBody_extends w branchOrTag cwd manifest q t
      obtain ⟨s2, hs2, hmem⟩ := ih (mergeLoop.body w branchOrTag cwd manifest q t) hrest
      refine ⟨s1 ++ s2, ?_, ?_⟩
      · rw [mergeLoop, hs2, hs1, List.append_assoc]
      · rw [execs_append]
        exact List.mem_append_right _ hmem

/-! ## The push loop -/

theorem pushLoop_statPaths (w : World) (cwd : String) (manifest : Manifest)
    (projects : List Project) (t : List Event) :
    statPaths (pushLoop w cwd manifest projects t) =
      statPaths t ++ projects.map (fun p => w.join cwd p.Path) := by
  induction projects generalizing t with
  | nil => simp [pushLoop]
  | cons p rest ih =>
    obtain ⟨s, hs, hstat, _⟩ := pushBody_shape w cwd manifest p t
    rw [pushLoop, ih, hs, statPaths_append]
    simp [statPaths, hstat]

theorem pushLoop_execs (w : World) (cwd : String) (manifest : Manifest)
    (projects : List Project) (t : List Event) :
    execs (pushLoop w cwd manifest projects t) =
      execs t ++ (present w cwd projects).map
        (fun p => pushCmd (w.join cwd p.Path) (getRemoteURL p (w.revision p) manifest)) := by
  induction projects generalizing t with
  | nil => simp [pushLoop, present]
  | cons p rest ih =>
    obtain ⟨s, hs, _, hexec⟩ := pushBody_shape w cwd manifest p t
    rw [pushLoop, ih, hs, execs_append]
    cases hex : w.notExist (w.join cwd p.Path) <;>
      simp [execs, hexec, hex, present, List.filter_cons]

theorem filter_pushes_length (sub : String) (projects : List Project)
    (path url : Project → String) :
    ((projects.map (fun p => pushCmd (path p) (url p))).filter
        (fun argv => decide (subcommand argv = some sub))).length =
      if sub = "push" then projects.length else 0 := by
  induction projects with
  | nil => simp
  | cons p rest ih =>
    by_cases hs : sub = "push"
    · simp only [hs, if_true] at ih
      simp [List.filter_cons, pushCmd, subcommand, hs]
      simpa [pushCmd, subcommand] using ih
    · have hs2 : ¬ "push" = sub := fun e => hs e.symm
      simp [List.filter_cons, pushCmd, subcommand, hs, hs2]

theorem countSub_pushes (sub : String) (projects : List Project)
    (path url : Project → String) (t : List Event)
    (h : execs t = projects.map (fun p => pushCmd (path p) (url p))) :
    countSub sub t = if sub = "push" then projects.length else 0 := by
  unfold countSub
  rw [h]
  exact filter_pushes_length sub projects path url

/-! ## The claims about URL resolution -/

/-- C1: the push destination is to end in the `Revision` of the matching
remote.  `getRemoteURL` does not read that field: its result is the same when
the `Revision` of every remote is replaced, and on the remotes of the example,
where the revision of `aosp` is `main`, it returns `https://host/frameworks/base`,
a blank and the `branchOrTag` of its caller, so it is the destination of the
claim exactly when the caller passes `main` itself. -/
theorem C1_remote_revision_not_read :
    (∀ (project : Project) (branchOrTag : String) (manifest : Manifest)
        (revision : Remote → String),
      getRemoteURL project branchOrTag
          { Remotes := manifest.Remotes.map
              (fun r => { Name := r.Name, Fetch := r.Fetch, Revision := revision r }),
            Projects := manifest.Projects } =
        getRemoteURL project branchOrTag manifest) ∧
    (∀ branchOrTag : String,
      getRemoteURL exampleProject branchOrTag exampleManifest =
        "https://host/" ++ "frameworks/base" ++ " " ++ branchOrTag) ∧
    (∀ branchOrTag : String,
      getRemoteURL exampleProject branchOrTag exampleManifest =
          "https://host/" ++ "frameworks/base" ++ " " ++ "main" ↔
        branchOrTag = "main") := by
  have hexample : ∀ branchOrTag : String,
      getRemoteURL exampleProject branchOrTag exampleManifest =
        "https://host/" ++ "frameworks/base" ++ " " ++ branchOrTag := by
    intro branchOrTag
    have h := getRemoteURL_first_match exampleProject branchOrTag exampleManifest []
      { Name := "aosp", Fetch := "https://host/", Revision := "main" }
      [{ Name := "other", Fetch := "https://other/", Revision := "stable" }]
      rfl (by simp) rfl
    rw [h]
    rfl
  refine ⟨?_, hexample, ?_⟩
  · intro project branchOrTag manifest revision
    simp only [getRemoteURL, loop_revision_irrelevant]
  · intro branchOrTag
    rw [hexample]
    constructor
    · intro h
      have hd := congrArg String.data h
      simp at hd
      exact String.ext hd
    · intro h
      rw [h]

/-- C2: when no remote of the manifest has `Name` equal to `project.Remote`,
`getRemoteURL` returns the empty string, for every `branchOrTag`; so it does
for a manifest without remotes. -/
theorem C2_no_matching_remote (project : Project) (branchOrTag : String)
    (manifest : Manifest) (h : ∀ r ∈ manifest.Remotes, r.Name ≠ project.Remote) :
    getRemoteURL project branchOrTag manifest = "" ∧
    getRemoteURL project branchOrTag { Remotes := [], Projects := manifest.Projects } = "" :=
  ⟨getRemoteURL_no_match project branchOrTag manifest h,
    getRemoteURL_no_match project branchOrTag _ (by simp)⟩

/-- C2 at a project whose remote `github` is none of `aosp`, `other`. -/
theorem C2_no_matching_remote_witness :
    getRemoteURL orphanProject "release-1.0" exampleManifest = "" ∧
    getRemoteURL orphanProject "release-1.0"
      { Remotes := [], Projects := exampleManifest.Projects } = "" :=
  C2_no_matching_remote orphanProject "release-1.0" exampleManifest (by decide)

/-- C10: `getRemoteURL` is decided by the first remote whose `Name` equals
`project.Remote`: with such a remote at the end of `pre`, the result is the
empty string when its `Fetch` is empty and `Fetch + project.Path + " " +
branchOrTag` otherwise, whatever remotes follow it; the result is empty exactly
when no remote has that name or the first one that has it has an empty `Fetch`;
and a non-empty result starts with that remote's `Fetch`. -/
theorem C10_first_match_decides (project : Project) (branchOrTag : String)
    (manifest : Manifest) :
    (∀ pre remote post, manifest.Remotes = pre ++ remote :: post →
      (∀ r ∈ pre, r.Name ≠ project.Remote) → remote.Name = project.Remote →
        getRemoteURL project branchOrTag manifest =
            (if remote.Fetch = "" then ""
              else remote.Fetch ++ project.Path ++ " " ++ branchOrTag) ∧
          getRemoteURL project branchOrTag manifest =
            getRemoteURL project branchOrTag
              { Remotes := pre ++ [remote], Projects := manifest.Projects } ∧
          (remote.Fetch ≠ "" →
            getRemoteURL project branchOrTag manifest ≠ "" ∧
            remote.Fetch.data <+: (getRemoteURL project branchOrTag manifest).data)) ∧
    (getRemoteURL project branchOrTag manifest = "" ↔
      (∀ r ∈ manifest.Remotes, r.Name ≠ project.Remote) ∨
      ∃ pre remote post, manifest.Remotes = pre ++ remote :: post ∧
        (∀ r ∈ pre, r.Name ≠ project.Remote) ∧ remote.Name = project.Remote ∧
        remote.Fetch = "") := by
  have hfirst := getRemoteURL_first_match project branchOrTag
  constructor
  · intro pre remote post hsplit hpre hname
    have hval := hfirst manifest pre remote post hsplit hpre hname
    refine ⟨hval, ?_, ?_⟩
    · rw [hval, hfirst { Remotes := pre ++ [remote], Projects := manifest.Projects }
        pre remote [] rfl hpre hname]
    · intro hfetch
      rw [hval, if_neg hfetch]
      refine ⟨?_, ?_⟩
      · rw [String.append_assoc, String.append_assoc]
        exact append_ne_empty _ _ hfetch
      · exact ⟨(project.Path ++ " " ++ branchOrTag).data, by simp [String.data_append]⟩
  · constructor
    · intro hempty
      by_cases hex : ∃ r ∈ manifest.Remotes, r.Name = project.Remote
      · obtain ⟨pre, remote, post, hsplit, hpre, hname⟩ :=
          first_match_split project manifest.Remotes hex
        refine Or.inr ⟨pre, remote, post, hsplit, hpre, hname, ?_⟩
        by_contra hfetch
        rw [hfirst manifest pre remote post hsplit hpre hname, if_neg hfetch,
          String.append_assoc, String.append_assoc] at hempty
        exact append_ne_empty _ _ hfetch hempty
      · exact Or.inl (fun r hr hn => hex ⟨r, hr, hn⟩)
    · rintro (hnone | ⟨pre, remote, post, hsplit, hpre, hname, hfetch⟩)
      · exact getRemoteURL_no_match project branchOrTag manifest hnone
      · rw [hfirst manifest pre remote post hsplit hpre hname, if_pos hfetch]

/-- C10 on two remotes named `aosp`, the first with an empty `Fetch`: the
second is never used and the result is empty; with the two in the other order
the result starts with the `Fetch` of the first. -/
theorem C10_first_match_decides_witness :
    getRemoteURL exampleProject "rel"
        { Remotes := [{ Name := "aosp", Fetch := "", Revision := "main" },
            { Name := "aosp", Fetch := "https://host/", Revision := "main" }],
          Projects := [] } = "" ∧
    getRemoteURL exampleProject "rel"
        { Remotes := [{ Name := "aosp", Fetch := "https://host/", Revision := "main" },
            { Name := "aosp", Fetch := "", Revision := "main" }],
          Projects := [] } = "https://host/frameworks/base rel" := by
  constructor
  · exact (C10_first_match_decides exampleProject "rel" _).2.mpr
      (Or.inr ⟨[], { Name := "aosp", Fetch := "", Revision := "main" },
        [{ Name := "aosp", Fetch := "https://host/", Revision := "main" }],
        rfl, by simp, rfl, rfl⟩)
  · exact ((C10_first_match_decides exampleProject "rel" _).1 []
      { Name := "aosp", Fetch := "https://host/", Revision := "main" }
      [{ Name := "aosp", Fetch := "", Revision := "main" }] rfl (by simp) rfl).1.trans
      (by decide)

/-! ## The claims about one repository -/

/-- C3: when the path of the project (the working directory joined with
`project.Path`) does not exist, `mergeRepository` and `pushRepository` each
return the error `repository not found in path: <path>`, and the only event
either adds is the probe of the path: no command is run. -/
theorem C3_missing_path_no_command (w : World) (project : Project)
    (branchOrTag cwd : String) (manifest : Manifest) (t : List Event)
    (hmissing : w.notExist (w.join cwd project.Path) = true) :
    mergeRepository w project branchOrTag cwd manifest t =
        (some ("repository not found in path: " ++ w.join cwd project.Path),
          t ++ [Event.stat (w.join cwd project.Path)]) ∧
    pushRepository w project cwd manifest t =
        (some ("repository not found in path: " ++ w.join cwd project.Path),
          t ++ [Event.stat (w.join cwd project.Path)]) ∧
    execs (mergeRepository w project branchOrTag cwd manifest t).2 = execs t ∧
    execs (pushRepository w project cwd manifest t).2 = execs t := by
  have hm := mergeRepository_missing w project branchOrTag cwd manifest t hmissing
  have hp := pushRepository_missing w project cwd manifest t hmissing
  refine ⟨hm, hp, ?_, ?_⟩
  · rw [hm, execs_append]; simp [execs]
  · rw [hp, execs_append]; simp [execs]

/-- C3 in a world where no path exists. -/
theorem C3_missing_path_no_command_witness :
    mergeRepository bareWorld exampleProject "release-1.0" "/src" exampleManifest [] =
        (some ("repository not found in path: " ++ bareWorld.join "/src" exampleProject.Path),
          [] ++ [Event.stat (bareWorld.join "/src" exampleProject.Path)]) ∧
    pushRepository bareWorld exampleProject "/src" exampleManifest [] =
        (some ("repository not found in path: " ++ bareWorld.join "/src" exampleProject.Path),
          [] ++ [Event.stat (bareWorld.join "/src" exampleProject.Path)]) ∧
    execs (mergeRepository bareWorld exampleProject "release-1.0" "/src" exampleManifest []).2 =
      execs [] ∧
    execs (pushRepository bareWorld exampleProject "/src" exampleManifest []).2 = execs [] :=
  C3_missing_path_no_command bareWorld exampleProject "release-1.0" "/src" exampleManifest []
    rfl

/-- C4: when the path of the project exists and the checkout and the pull both
succeed, `mergeRepository` returns no error and runs exactly two commands after
the probe: `git -C <path> checkout <branchOrTag>`, then `git -C <path> pull
https://android.googlesource.com<project.Path> <branchOrTag>`; in the merge
loop, the projects after it are visited from the trace that ends in these. -/
theorem C4_checkout_then_pull (w : World) (project : Project)
    (branchOrTag cwd : String) (manifest : Manifest) (t : List Event)
    (hex : w.notExist (w.join cwd project.Path) = false)
    (hcheckout : w.run (t ++ [Event.stat (w.join cwd project.Path)])
      ["git", "-C", w.join cwd project.Path, "checkout", branchOrTag] = none)
    (hpull : w.run (t ++ [Event.stat (w.join cwd project.Path),
        Event.exec ["git", "-C", w.join cwd project.Path, "checkout", branchOrTag]])
      ["git", "-C", w.join cwd project.Path, "pull",
        "https://android.googlesource.com" ++ project.Path, branchOrTag] = none) :
    mergeRepository w project branchOrTag cwd manifest t =
        (none, t ++ [Event.stat (w.join cwd project.Path),
          Event.exec ["git", "-C", w.join cwd project.Path, "checkout", branchOrTag],
          Event.exec ["git", "-C", w.join cwd project.Path, "pull",
            "https://android.googlesource.com" ++ project.Path, branchOrTag]]) ∧
    execs (mergeRepository w project branchOrTag cwd manifest t).2 =
      execs t ++ [["git", "-C", w.join cwd project.Path, "checkout", branchOrTag],
        ["git", "-C", w.join cwd project.Path, "pull",
          "https://android.googlesource.com" ++ project.Path, branchOrTag]] ∧
    (project.Groups = "aosp-platform" → ∀ rest : List Project,
      ∃ later, mergeLoop w branchOrTag cwd manifest (project :: rest) t =
        t ++ [Event.stat (w.join cwd project.Path),
          Event.exec ["git", "-C", w.join cwd project.Path, "checkout", branchOrTag],
          Event.exec ["git", "-C", w.join cwd project.Path, "pull",
            "https://android.googlesource.com" ++ project.Path, branchOrTag]] ++ later ∧
        mergeLoop w branchOrTag cwd manifest rest
          (t ++ [Event.stat (w.join cwd project.Path),
            Event.exec ["git", "-C", w.join cwd project.Path, "checkout", branchOrTag],
            Event.exec ["git", "-C", w.join cwd project.Path, "pull",
              "https://android.googlesource.com" ++ project.Path, branchOrTag]]) =
          t ++ [Event.stat (w.join cwd project.Path),
            Event.exec ["git", "-C", w.join cwd project.Path, "checkout", branchOrTag],
            Event.exec ["git", "-C", w.join cwd project.Path, "pull",
              "https://android.googlesource.com" ++ project.Path, branchOrTag]] ++ later) := by
  have hm := mergeRepository_checkout_ok w project branchOrTag cwd manifest t hex hcheckout
  simp only [checkoutCmd, pullCmd] at hm
  rw [hpull] at hm
  refine ⟨hm, ?_, ?_⟩
  · rw [hm, execs_append]; simp [execs]
  · intro hgroup rest
    have hbody : mergeLoop.body w branchOrTag cwd manifest project t =
        t ++ [Event.stat (w.join cwd project.Path),
          Event.exec ["git", "-C", w.join cwd project.Path, "checkout", branchOrTag],
          Event.exec ["git", "-C", w.join cwd project.Path, "pull",
            "https://android.googlesource.com" ++ project.Path, branchOrTag]] := by
      simp [mergeLoop.body, hgroup, hm]
    obtain ⟨later, hlater⟩ := mergeLoop_extends w branchOrTag cwd manifest rest
      (t ++ [Event.stat (w.join cwd project.Path),
          Event.exec ["git", "-C", w.join cwd project.Path, "checkout", branchOrTag],
          Event.exec ["git", "-C", w.join cwd project.Path, "pull",
            "https://android.googlesource.com" ++ project.Path, branchOrTag]])
    refine ⟨later, ?_, hlater⟩
    rw [mergeLoop, hbody, hlater]

/-- C4 at the end-to-end scenario: one project of the group, `-b release-1.0`. -/
theorem C4_checkout_then_pull_witness :
    mergeRepository calmWorld exampleProject "release-1.0" "/src" exampleManifest [] =
      (none, [Event.stat "/src/frameworks/base",
        Event.exec ["git", "-C", "/src/frameworks/base", "checkout", "release-1.0"],
        Event.exec ["git", "-C", "/src/frameworks/base", "pull",
          "https://android.googlesource.comframeworks/base", "release-1.0"]]) :=
  (C4_checkout_then_pull calmWorld exampleProject "release-1.0" "/src" exampleManifest []
    rfl rfl rfl).1.trans (by decide)

/-- C9: when the path of the project exists and no remote of the manifest has
`Name` equal to `project.Remote`, `pushRepository` runs exactly one command,
`git -C <path> push ""`, and returns what that command returns. -/
theorem C9_push_to_empty_destination (w : World) (project : Project) (cwd : String)
    (manifest : Manifest) (t : List Event)
    (hex : w.notExist (w.join cwd project.Path) = false)
    (hnone : ∀ r ∈ manifest.Remotes, r.Name ≠ project.Remote) :
    pushRepository w project cwd manifest t =
      (w.run (t ++ [Event.stat (w.join cwd project.Path)])
          ["git", "-C", w.join cwd project.Path, "push", ""],
        t ++ [Event.stat (w.join cwd project.Path),
          Event.exec ["git", "-C", w.join cwd project.Path, "push", ""]]) ∧
    execs (pushRepository w project cwd manifest t).2 =
      execs t ++ [["git", "-C", w.join cwd project.Path, "push", ""]] := by
  have hp := pushRepository_present w project cwd manifest t hex
  rw [getRemoteURL_no_match project (w.revision project) manifest hnone] at hp
  simp only [pushCmd] at hp
  refine ⟨hp, ?_⟩
  rw [hp, execs_append]; simp [execs]

/-- C9 at a project whose remote `github` is not in the manifest. -/
theorem C9_push_to_empty_destination_witness :
    pushRepository calmWorld orphanProject "/src" exampleManifest [] =
      (none, [Event.stat "/src/vendor/extra",
        Event.exec ["git", "-C", "/src/vendor/extra", "push", ""]]) :=
  (C9_push_to_empty_destination calmWorld orphanProject "/src" exampleManifest []
    rfl (by decide)).1.trans (by decide)

/-! ## The claims about the loops of `main` -/

/-- C5: with `--merge-all`, with or without `-p`, `main` runs the merge loop on
the projects of the manifest from the empty trace (and the push loop after it
when `-p` is set), so the paths it probes are those of the projects whose
`Groups` equals `aosp-platform`, in manifest order, before any probe of the push
loop, and its commands are those of the merge loop followed by the pushes.  The
merge loop is the run of `mergeRepository` over exactly those projects, each
once and in order: it equals `mergeEach` on the filtered list, its probes are
the paths of those projects, each command it runs is the checkout or the pull
of such a project, and a project whose `Groups` differs is passed over without
any event. -/
theorem C5_merge_loop_selects_group (w : World) (branchOrTag cwd : String)
    (manifest : Manifest) :
    (∀ pushFlag : Bool,
      (main w { mergeAll := true, pushFlag := pushFlag, branchOrTag := branchOrTag }
          (Except.ok manifest) (Except.ok cwd)).2 =
        (if pushFlag = true then
          pushLoop w cwd manifest manifest.Projects
            (mergeLoop w branchOrTag cwd manifest manifest.Projects [])
        else mergeLoop w branchOrTag cwd manifest manifest.Projects [])) ∧
    (∀ pushFlag : Bool,
      statPaths (main w { mergeAll := true, pushFlag := pushFlag, branchOrTag := branchOrTag }
          (Except.ok manifest) (Except.ok cwd)).2 =
        (manifest.Projects.filter eligible).map (fun p => w.join cwd p.Path) ++
          (if pushFlag = true then manifest.Projects.map (fun p => w.join cwd p.Path)
          else [])) ∧
    (∀ pushFlag : Bool,
      execs (main w { mergeAll := true, pushFlag := pushFlag, branchOrTag := branchOrTag }
          (Except.ok manifest) (Except.ok cwd)).2 =
        execs (mergeLoop w branchOrTag cwd manifest manifest.Projects []) ++
          (if pushFlag = true then
            (manifest.Projects.filter (fun p => !w.notExist (w.join cwd p.Path))).map
              (fun p => ["git", "-C", w.join cwd p.Path, "push",
                getRemoteURL p (w.revision p) manifest])
          else [])) ∧
    (∀ (projects : List Project) (t : List Event),
      mergeLoop w branchOrTag cwd manifest projects t =
          mergeEach w branchOrTag cwd manifest (projects.filter eligible) t ∧
        statPaths (mergeLoop w branchOrTag cwd manifest projects t) =
          statPaths t ++ (projects.filter eligible).map (fun p => w.join cwd p.Path) ∧
        ∀ argv ∈ execs (mergeLoop w branchOrTag cwd manifest projects t),
          argv ∈ execs t ∨ ∃ p ∈ projects, p.Groups = "aosp-platform" ∧
            (argv = ["git", "-C", w.join cwd p.Path, "checkout", branchOrTag] ∨
              argv = ["git", "-C", w.join cwd p.Path, "pull",
                "https://android.googlesource.com" ++ p.Path, branchOrTag])) ∧
    (∀ (project : Project) (rest : List Project) (t : List Event),
      project.Groups ≠ "aosp-platform" →
        mergeLoop w branchOrTag cwd manifest (project :: rest) t =
          mergeLoop w branchOrTag cwd manifest rest t) := by
  have hmain : ∀ pushFlag : Bool,
      (main w { mergeAll := true, pushFlag := pushFlag, branchOrTag := branchOrTag }
          (Except.ok manifest) (Except.ok cwd)).2 =
        (if pushFlag = true then
          pushLoop w cwd manifest manifest.Projects
            (mergeLoop w branchOrTag cwd manifest manifest.Projects [])
        else mergeLoop w branchOrTag cwd manifest manifest.Projects []) := by
    intro pushFlag
    cases pushFlag <;> rfl
  refine ⟨hmain, ?_, ?_, ?_, ?_⟩
  · intro pushFlag
    rw [hmain]
    cases pushFlag
    · simp [mergeLoop_statPaths, statPaths]
    · simp [pushLoop_statPaths, mergeLoop_statPaths, statPaths]
  · intro pushFlag
    rw [hmain]
    cases pushFlag
    · simp
    · simp [pushLoop_execs, present, pushCmd]
  · intro projects t
    refine ⟨mergeLoop_eq_mergeEach w branchOrTag cwd manifest projects t,
      mergeLoop_statPaths w branchOrTag cwd manifest projects t, ?_⟩
    intro argv hmem
    rcases mergeLoop_execs_mem w branchOrTag cwd manifest projects t argv hmem with
      h | ⟨p, hp, hgroup, _, hcmd⟩
    · exact Or.inl h
    · exact Or.inr ⟨p, hp, hgroup, by simpa [checkoutCmd, pullCmd] using hcmd⟩
  · intro project rest t hgroup
    rw [mergeLoop, mergeBody_skip w branchOrTag cwd manifest project t hgroup]

/-- C5 on the example manifest: of its four projects, the two whose `Groups`
is `aosp-platform` are probed and merged, and neither the one with
`aosp-platform,pdk` nor the one with an empty `Groups`; with `-p` as well, the
same four commands come first and the pushes after them. -/
theorem C5_merge_loop_selects_group_witness :
    statPaths (main calmWorld { mergeAll := true, pushFlag := false, branchOrTag := "rel" }
        (Except.ok exampleManifest) (Except.ok "/src")).2 =
      ["/src/frameworks/base", "/src/art"] ∧
    execs (main calmWorld { mergeAll := true, pushFlag := false, branchOrTag := "rel" }
        (Except.ok exampleManifest) (Except.ok "/src")).2 =
      [["git", "-C", "/src/frameworks/base", "checkout", "rel"],
       ["git", "-C", "/src/frameworks/base", "pull",
         "https://android.googlesource.comframeworks/base", "rel"],
       ["git", "-C", "/src/art", "checkout", "rel"],
       ["git", "-C", "/src/art", "pull", "https://android.googlesource.comart", "rel"]] ∧
    execs (main calmWorld { mergeAll := true, pushFlag := true, branchOrTag := "rel" }
        (Except.ok exampleManifest) (Except.ok "/src")).2 =
      [["git", "-C", "/src/frameworks/base", "checkout", "rel"],
       ["git", "-C", "/src/frameworks/base", "pull",
         "https://android.googlesource.comframeworks/base", "rel"],
       ["git", "-C", "/src/art", "checkout", "rel"],
       ["git", "-C", "/src/art", "pull", "https://android.googlesource.comart", "rel"],
       ["git", "-C", "/src/frameworks/base", "push", "https://host/frameworks/base dev"],
       ["git", "-C", "/src/bionic", "push", "https://host/bionic dev"],
       ["git", "-C", "/src/vendor/extra", "push", ""],
       ["git", "-C", "/src/art", "push", "https://host/art dev"]] := by
  have h := C5_merge_loop_selects_group calmWorld "rel" "/src" exampleManifest
  exact ⟨(h.2.1 false).trans (by decide), (h.2.2.1 false).trans (by decide),
    (h.2.2.1 true).trans (by decide)⟩

/-- C6: failures are isolated.  Whatever the outcomes of the probes and of the
commands, the merge loop probes the path of every project of the group and the
push loop the path of every project, in manifest order; the checkout of every
project of the group whose path exists is run, and so is the push of every
project whose path exists; and when the checkout of a project `A` of the group
fails, the checkout of every later project `B` of the group whose path exists
is run after the error of `A` is printed. -/
theorem C6_failures_are_isolated (w : World) (branchOrTag cwd : String)
    (manifest : Manifest) (t : List Event) :
    statPaths (mergeLoop w branchOrTag cwd manifest manifest.Projects t) =
      statPaths t ++ (manifest.Projects.filter eligible).map (fun p => w.join cwd p.Path) ∧
    statPaths (pushLoop w cwd manifest manifest.Projects t) =
      statPaths t ++ manifest.Projects.map (fun p => w.join cwd p.Path) ∧
    (∀ B ∈ manifest.Projects, B.Groups = "aosp-platform" →
      w.notExist (w.join cwd B.Path) = false →
      ∃ added, mergeLoop w branchOrTag cwd manifest manifest.Projects t = t ++ added ∧
        ["git", "-C", w.join cwd B.Path, "checkout", branchOrTag] ∈ execs added) ∧
    (∀ B ∈ manifest.Projects, w.notExist (w.join cwd B.Path) = false →
      ["git", "-C", w.join cwd B.Path, "push", getRemoteURL B (w.revision B) manifest] ∈
        execs (pushLoop w cwd manifest manifest.Projects t)) ∧
    (∀ (pre : List Project) (A : Project) (post : List Project) (B : Project) (err : String),
      manifest.Projects = pre ++ A :: post →
      A.Groups = "aosp-platform" → w.notExist (w.join cwd A.Path) = false →
      w.run (mergeLoop w branchOrTag cwd manifest pre t ++ [Event.stat (w.join cwd A.Path)])
        ["git", "-C", w.join cwd A.Path, "checkout", branchOrTag] = some err →
      B ∈ post → B.Groups = "aosp-platform" → w.notExist (w.join cwd B.Path) = false →
      ∃ later, mergeLoop w branchOrTag cwd manifest manifest.Projects t =
          mergeLoop w branchOrTag cwd manifest pre t ++
            [Event.stat (w.join cwd A.Path),
              Event.exec ["git", "-C", w.join cwd A.Path, "checkout", branchOrTag],
              Event.print ("Error merging " ++ A.Name ++ ": " ++ err ++ "\n")] ++ later ∧
        ["git", "-C", w.join cwd B.Path, "checkout", branchOrTag] ∈ execs later) := by
  refine ⟨mergeLoop_statPaths w branchOrTag cwd manifest manifest.Projects t,
    pushLoop_statPaths w cwd manifest manifest.Projects t, ?_, ?_, ?_⟩
  · intro B hB hgroup hex
    exact mergeLoop_checkout_added w branchOrTag cwd manifest manifest.Projects t B hB hgroup hex
  · intro B hB hex
    rw [pushLoop_execs]
    apply List.mem_append_right
    exact List.mem_map.mpr ⟨B, by simp [present, hB, hex], rfl⟩
  · intro pre A post B err hsplit hA hexA hfail hB hgroupB hexB
    have hm := mergeRepository_checkout_fails w A branchOrTag cwd manifest
      (mergeLoop w branchOrTag cwd manifest pre t) err hexA hfail
    obtain ⟨later, hlater, hmem⟩ := mergeLoop_checkout_added w branchOrTag cwd manifest post
      (mergeLoop.body w branchOrTag cwd manifest A (mergeLoop w branchOrTag cwd manifest pre t))
      B hB hgroupB hexB
    refine ⟨later, ?_, hmem⟩
    rw [hsplit, mergeLoop_append, mergeLoop, hlater]
    simp [mergeLoop.body, hA, hm, checkoutCmd]

/-- C6 in a world where the checkout of the first project fails: the error is
printed and the checkout of the later project `art` is run all the same. -/
theorem C6_failures_are_isolated_witness :
    ∃ later, mergeLoop flakyWorld "release-1.0" "/src" exampleManifest
        exampleManifest.Projects [] =
      mergeLoop flakyWorld "release-1.0" "/src" exampleManifest [] [] ++
        [Event.stat (flakyWorld.join "/src" exampleProject.Path),
          Event.exec ["git", "-C", flakyWorld.join "/src" exampleProject.Path, "checkout",
            "release-1.0"],
          Event.print ("Error merging " ++ exampleProject.Name ++ ": " ++ "exit status 1"
            ++ "\n")] ++ later ∧
      ["git", "-C", flakyWorld.join "/src" artProject.Path, "checkout", "release-1.0"] ∈
        execs later :=
  (C6_failures_are_isolated flakyWorld "release-1.0" "/src" exampleManifest []).2.2.2.2
    [] exampleProject [pdkProject, orphanProject, artProject] artProject "exit status 1"
    rfl rfl (by decide) (by decide) (by simp) rfl (by decide)

/-- C7: with `-p` and without `--merge-all`, the run exits with code 0, probes
the path of every project, and the commands it runs are exactly one push for
each project whose path exists, in manifest order, whatever the `Groups` of the
projects: no checkout, no pull, and as many pushes as projects whose path
exists. -/
theorem C7_push_only_run (w : World) (branchOrTag cwd : String) (manifest : Manifest) :
    (main w { mergeAll := false, pushFlag := true, branchOrTag := branchOrTag }
        (Except.ok manifest) (Except.ok cwd)).1 = 0 ∧
    execs (main w { mergeAll := false, pushFlag := true, branchOrTag := branchOrTag }
        (Except.ok manifest) (Except.ok cwd)).2 =
      (manifest.Projects.filter (fun p => !w.notExist (w.join cwd p.Path))).map
        (fun p => ["git", "-C", w.join cwd p.Path, "push",
          getRemoteURL p (w.revision p) manifest]) ∧
    statPaths (main w { mergeAll := false, pushFlag := true, branchOrTag := branchOrTag }
        (Except.ok manifest) (Except.ok cwd)).2 =
      manifest.Projects.map (fun p => w.join cwd p.Path) ∧
    countSub "checkout"
        (main w { mergeAll := false, pushFlag := true, branchOrTag := branchOrTag }
          (Except.ok manifest) (Except.ok cwd)).2 = 0 ∧
    countSub "pull"
        (main w { mergeAll := false, pushFlag := true, branchOrTag := branchOrTag }
          (Except.ok manifest) (Except.ok cwd)).2 = 0 ∧
    countSub "push"
        (main w { mergeAll := false, pushFlag := true, branchOrTag := branchOrTag }
          (Except.ok manifest) (Except.ok cwd)).2 =
      (manifest.Projects.filter (fun p => !w.notExist (w.join cwd p.Path))).length := by
  have hmain : (main w { mergeAll := false, pushFlag := true, branchOrTag := branchOrTag }
      (Except.ok manifest) (Except.ok cwd)) = (0, pushLoop w cwd manifest manifest.Projects []) :=
    rfl
  have hexecs : execs (pushLoop w cwd manifest manifest.Projects []) =
      (present w cwd manifest.Projects).map
        (fun p => pushCmd (w.join cwd p.Path) (getRemoteURL p (w.revision p) manifest)) := by
    rw [pushLoop_execs]; rfl
  have hcount := fun sub => countSub_pushes sub (present w cwd manifest.Projects)
    (fun p => w.join cwd p.Path) (fun p => getRemoteURL p (w.revision p) manifest)
    (pushLoop w cwd manifest manifest.Projects []) hexecs
  rw [hmain]
  refine ⟨rfl, hexecs, ?_, ?_, ?_, ?_⟩
  · simp only [pushLoop_statPaths]; rfl
  · rw [hcount "checkout"]; exact if_neg (by decide)
  · rw [hcount "pull"]; exact if_neg (by decide)
  · rw [hcount "push"]; rfl

/-- C7 on the example manifest in a world where `/src/vendor/extra` is
missing: three pushes, for the three projects whose path exists, among them
the one of the group and the ones outside it. -/
theorem C7_push_only_run_witness :
    execs (main flakyWorld { mergeAll := false, pushFlag := true, branchOrTag := "master" }
        (Except.ok exampleManifest) (Except.ok "/src")).2 =
      [["git", "-C", "/src/frameworks/base", "push", "https://host/frameworks/base dev"],
       ["git", "-C", "/src/bionic", "push", "https://host/bionic dev"],
       ["git", "-C", "/src/art", "push", "https://host/art dev"]] :=
  (C7_push_only_run flakyWorld "master" "/src" exampleManifest).2.1.trans (by decide)

/-- C8: the exit code of `main` is 1 exactly when the manifest could not be
loaded or the working directory could not be determined, and then no path is
probed and no command is run; in every other case it is 0, whatever errors the
merges and the pushes of the projects return. -/
theorem C8_exit_code (w : World) (flags : Flags) (manifestResult : Except String Manifest)
    (cwdResult : Except String String) :
    ((main w flags manifestResult cwdResult).1 = 1 ↔
      (∃ err, manifestResult = Except.error err) ∨ (∃ err, cwdResult = Except.error err)) ∧
    ((main w flags manifestResult cwdResult).1 = 1 →
      execs (main w flags manifestResult cwdResult).2 = [] ∧
      statPaths (main w flags manifestResult cwdResult).2 = []) ∧
    ((main w flags manifestResult cwdResult).1 ≠ 1 →
      (main w flags manifestResult cwdResult).1 = 0) ∧
    (∀ manifest cwd, manifestResult = Except.ok manifest → cwdResult = Except.ok cwd →
      (main w flags manifestResult cwdResult).1 = 0) := by
  cases manifestResult with
  | error e => simp [main, execs, statPaths]
  | ok manifest =>
    cases cwdResult with
    | error e => simp [main, execs, statPaths]
    | ok cwd => simp [main]

/-- C8 in a world where no path exists, so that every merge and every push
fails: the exit code is 0; and it is 1 when the manifest cannot be read. -/
theorem C8_exit_code_witness :
    (main bareWorld { mergeAll := true, pushFlag := true, branchOrTag := "master" }
        (Except.ok exampleManifest) (Except.ok "/src")).1 = 0 ∧
    (main bareWorld { mergeAll := true, pushFlag := true, branchOrTag := "master" }
        (Except.error "open manifest.xml: no such file or directory")
        (Except.ok "/src")).1 = 1 :=
  ⟨(C8_exit_code bareWorld _ _ _).2.2.2 exampleManifest "/src" rfl rfl,
    (C8_exit_code bareWorld _ _ _).1.mpr (Or.inl ⟨_, rfl⟩)⟩

end Tide
